import Mathlib

/-!
# interactsh: client identifier minting and the SMTP listener

A shallow embedding of `pkg/client/client.go` and `pkg/server/smtp_server.go`.

A Go `string` is its sequence of bytes: `len`, slicing, `strings.Split`,
`strings.Index` and `strings.Contains` all work on bytes.  A byte is a natural
number below 256.  Collaborators the two files only call (the correlation
store, the DSL evaluator, the JSON encoder, the HTTP transport, the key
generator) are fields of an environment record; the calls the handler makes
are recorded in a trace.
-/

namespace Interactsh

/-! ## Go strings -/

/-- A Go string: its bytes. -/
abbrev Str := List Nat

/-- The byte of the separator "." -/
def dot : Nat := 46

/-- The byte of the separator "@" -/
def at_sign : Nat := 64

/-- The value `utf8.RuneError` (U+FFFD). -/
def RuneError : Nat := 0xFFFD

/-- The bytes `utf8.EncodeRune` writes for a rune; a surrogate or a value above
U+10FFFF is written as U+FFFD. -/
def encodeRune (r : Nat) : Str :=
  if r ≤ 0x7F then [r]
  else if r ≤ 0x7FF then [0xC0 + r / 64, 0x80 + r % 64]
  else if 0x10FFFF < r ∨ (0xD800 ≤ r ∧ r ≤ 0xDFFF) then [0xEF, 0xBF, 0xBD]
  else if r ≤ 0xFFFF then [0xE0 + r / 4096, 0x80 + r / 64 % 64, 0x80 + r % 64]
  else [0xF0 + r / 262144, 0x80 + r / 4096 % 64, 0x80 + r / 64 % 64, 0x80 + r % 64]

/-- The conversion `string(rns)` of a rune slice. -/
def stringOfRunes (rns : List Nat) : Str :=
  rns.flatMap encodeRune

/-- Membership of a byte in a closed range. -/
def inRange (b lo hi : Nat) : Bool :=
  decide (lo ≤ b) && decide (b ≤ hi)

/-- The function `utf8.DecodeRuneInString`: the first rune of the string and
its width in bytes; an invalid or truncated sequence is `(RuneError, 1)`. -/
def decodeRune : Str → Nat × Nat
  | [] => (RuneError, 0)
  | b0 :: rest =>
    if b0 < 0x80 then (b0, 1)
    else if inRange b0 0xC2 0xDF then
      match rest with
      | b1 :: _ =>
        if inRange b1 0x80 0xBF then ((b0 % 32) * 64 + b1 % 64, 2) else (RuneError, 1)
      | _ => (RuneError, 1)
    else if inRange b0 0xE0 0xEF then
      let lo := if b0 = 0xE0 then 0xA0 else 0x80
      let hi := if b0 = 0xED then 0x9F else 0xBF
      match rest with
      | b1 :: b2 :: _ =>
        if inRange b1 lo hi && inRange b2 0x80 0xBF then
          ((b0 % 16) * 4096 + (b1 % 64) * 64 + b2 % 64, 3)
        else (RuneError, 1)
      | _ => (RuneError, 1)
    else if inRange b0 0xF0 0xF4 then
      let lo := if b0 = 0xF0 then 0x90 else 0x80
      let hi := if b0 = 0xF4 then 0x8F else 0xBF
      match rest with
      | b1 :: b2 :: b3 :: _ =>
        if inRange b1 lo hi && inRange b2 0x80 0xBF && inRange b3 0x80 0xBF then
          ((b0 % 8) * 262144 + (b1 % 64) * 4096 + (b2 % 64) * 64 + b3 % 64, 4)
        else (RuneError, 1)
      | _ => (RuneError, 1)
    else (RuneError, 1)

/-- The runes of a string, skipping the `skip` bytes that belong to the rune
decoded last. -/
def runesFrom : Nat → Str → List Nat
  | _, [] => []
  | k + 1, _ :: rest => runesFrom k rest
  | 0, b :: rest => (decodeRune (b :: rest)).1 :: runesFrom ((decodeRune (b :: rest)).2 - 1) rest

/-- The conversion `[]rune(s)`. -/
def runesOfString (s : Str) : List Nat :=
  runesFrom 0 s

/-- The bytes of a string literal (its UTF-8 encoding). -/
def lit (s : String) : Str :=
  stringOfRunes (s.data.map Char.toNat)

/-- The call `strings.Split(s, sep)` for a one-byte separator: the pieces
between the separators, a single empty piece for the empty string. -/
def split (sep : Nat) : Str → List Str
  | [] => [[]]
  | c :: cs =>
    if c = sep then [] :: split sep cs
    else
      match split sep cs with
      | [] => [[c]]
      | p :: ps => (c :: p) :: ps

/-- The call `strings.Join(parts, sep)` for a one-byte separator. -/
def join (sep : Nat) : List Str → Str
  | [] => []
  | [p] => p
  | p :: q :: ps => p ++ sep :: join sep (q :: ps)

/-- The call `strings.Contains(s, sep)` for a one-byte separator. -/
def contains (s : Str) (sep : Nat) : Bool :=
  s.any (fun c => decide (c = sep))

/-- The call `strings.Index(s, sep)` for a one-byte separator: the position of
the first occurrence, `-1` when there is none. -/
def index (sep : Nat) : Str → Int
  | [] => -1
  | c :: cs =>
    if c = sep then 0
    else if index sep cs = -1 then -1 else index sep cs + 1

/-- The slice expression `s[lo:]` for an in-range `lo`. -/
def sliceFrom (s : Str) (lo : Int) : Str :=
  s.drop lo.toNat

/-! ## The SMTP listener: identifier extraction -/

/-- The three variables the extraction loop of `defaultHandler` assigns. -/
structure IDs where
  uniqueID : Str
  fullID : Str
  correlationID : Str
deriving DecidableEq, Repr

/-- The inner loop `for i, part := range parts`, from index `i` on; `rest` is
`parts[i:]`. -/
def scanParts (parts : List Str) : List Str → Nat → IDs → IDs
  | [], _, ids => ids
  | part :: rest, i, ids =>
    if part.length = 33 then
      let uniqueID := part
      let correlationID := uniqueID.take 20
      let fullID := if i + 1 ≤ parts.length then join dot (parts.take (i + 1)) else part
      scanParts parts rest (i + 1) ⟨uniqueID, fullID, correlationID⟩
    else scanParts parts rest (i + 1) ids

/-- The host part the handler splits: `addr[strings.Index(addr, "@")+1:]`. -/
def hostPart (addr : Str) : Str :=
  sliceFrom addr (index at_sign addr + 1)

/-- One iteration of the outer loop `for _, addr := range to`. -/
def scanAddr (ids : IDs) (addr : Str) : IDs :=
  if 33 < addr.length ∧ contains addr at_sign = true then
    let parts := split dot (hostPart addr)
    scanParts parts parts 0 ids
  else ids

/-- The extraction loop of `defaultHandler` (lines 83 to 101): all three
variables start empty; `rcpts` is the parameter `to`. -/
def extractIDs (rcpts : List Str) : IDs :=
  rcpts.foldl scanAddr ⟨[], [], []⟩

/-! ## The SMTP listener: callbacks and persistence -/

/-- A Go `error` value that is not nil: its message. -/
abbrev Error := String

/-- Modelled from the spec: a callback of a session, a (predicate-expression,
action-code) pair; the handler reads its fields `DSL` and `Code`, the type is
declared outside the two files. -/
structure Callback where
  DSL : Str
  Code : Str
deriving DecidableEq, Repr

/-- Modelled from the spec: the session record `GetCorrelationDataByID`
returns; the handler reads only its ordered list `Callbacks`, the type is
declared outside the two files. -/
structure CorrelationData where
  Callbacks : List Callback
deriving DecidableEq, Repr

/-- The binding `mapDSL` the handler builds for every callback. -/
structure Binding where
  remote_addr : Str
  «from» : Str
  «to» : List Str
  data : Str
deriving DecidableEq, Repr

/-- Modelled from the spec: the Interaction record, with the fields the
handler sets in its struct literal; the type is declared outside the two
files. -/
structure Interaction where
  Protocol : Str
  UniqueID : Str
  FullId : Str
  RawRequest : Str
  SMTPFrom : Str
  RemoteAddress : Str
  Timestamp : Int
deriving DecidableEq, Repr

/-- The collaborators `defaultHandler` calls, over a world state `σ` that
every call may read and change: the correlation store, the DSL evaluator,
the JSON encoder, the clock and `net.SplitHostPort`. -/
structure Env (σ : Type) where
  /-- The call `Storage.GetCorrelationDataByID(id)`: a session or an error. -/
  getCorrelationDataByID : Str → σ → Except Error CorrelationData × σ
  /-- The call `nebula.EvalAsBool(dsl, mapDSL)`: both results, as Go returns them. -/
  evalAsBool : Str → Binding → σ → (Bool × Option Error) × σ
  /-- The call `nebula.Eval(code, mapDSL)`: the error result (the value is dropped). -/
  eval : Str → Binding → σ → Option Error × σ
  /-- The JSON encoding of an interaction into the buffer. -/
  encode : Interaction → Except Error Str
  /-- The call `Storage.AddInteraction(id, data)`: its error result. -/
  addInteraction : Str → Str → σ → Option Error × σ
  /-- The host that `net.SplitHostPort` returns for the remote address. -/
  splitHostPort : Str → Str
  /-- The value of `time.Now()`. -/
  now : σ → Int

/-- A call the handler makes to a collaborator, in the order it makes them. -/
inductive Event where
  | getCorrelationData (id : Str)
  | evalAsBool (dsl : Str)
  | eval (code : Str)
  | addInteraction (id : Str) (interaction : Interaction) (data : Str)
deriving DecidableEq, Repr

/-- What a run of (a part of) the handler leaves behind: the value of an
early `return err` if there was one, the world state, and the calls made. -/
structure Outcome (σ : Type) where
  returned : Option Error
  state : σ
  trace : List Event

/-- The loop `for _, callback := range item.Callbacks` (lines 106 to 124). A
predicate error is logged and the loop goes on; an action error is logged and
returned from the handler. -/
def runCallbacks {σ : Type} (env : Env σ) (mapDSL : Binding) :
    List Callback → σ → Outcome σ
  | [], s => ⟨none, s, []⟩
  | callback :: rest, s =>
    let r := env.evalAsBool callback.DSL mapDSL s
    if r.1.1 = true then
      let a := env.eval callback.Code mapDSL r.2
      match a.1 with
      | some err => ⟨some err, a.2, [Event.evalAsBool callback.DSL, Event.eval callback.Code]⟩
      | none =>
        let o := runCallbacks env mapDSL rest a.2
        ⟨o.returned, o.state, Event.evalAsBool callback.DSL :: Event.eval callback.Code :: o.trace⟩
    else
      let o := runCallbacks env mapDSL rest r.2
      ⟨o.returned, o.state, Event.evalAsBool callback.DSL :: o.trace⟩

/-- The block `if uniqueID != ""` (lines 129 to 149): build the interaction,
encode it and hand it to the store; both failures are only logged. -/
def persist {σ : Type} (env : Env σ) (remoteAddr «from» data : Str) (ids : IDs) (s : σ) :
    σ × List Event :=
  if ids.uniqueID ≠ [] then
    let host := env.splitHostPort remoteAddr
    let interaction : Interaction :=
      ⟨lit "smtp", ids.uniqueID, ids.fullID, data, «from», host, env.now s⟩
    match env.encode interaction with
    | Except.error _ => (s, [])
    | Except.ok buffer =>
      let r := env.addInteraction ids.correlationID buffer s
      (r.2, [Event.addInteraction ids.correlationID interaction buffer])
  else (s, [])

/-- The handler `SMTPServer.defaultHandler`: extraction, session lookup,
callbacks, persistence. `returned = none` is the result `nil`. -/
def defaultHandler {σ : Type} (env : Env σ) (remoteAddr «from» : Str) (rcpts : List Str)
    (data : Str) (s : σ) : Outcome σ :=
  let ids := extractIDs rcpts
  let item := env.getCorrelationDataByID ids.correlationID s
  let lookup := Event.getCorrelationData ids.correlationID
  match item.1 with
  | Except.ok it =>
    let o := runCallbacks env ⟨remoteAddr, «from», rcpts, data⟩ it.Callbacks item.2
    match o.returned with
    | some err => ⟨some err, o.state, lookup :: o.trace⟩
    | none =>
      let p := persist env remoteAddr «from» data ids o.state
      ⟨none, p.1, lookup :: (o.trace ++ p.2)⟩
  | Except.error _ =>
    let p := persist env remoteAddr «from» data ids item.2
    ⟨none, p.1, [lookup] ++ p.2⟩

/-- The callback events of a trace: predicate and action evaluations. -/
def Event.isCallback : Event → Bool
  | Event.evalAsBool _ => true
  | Event.eval _ => true
  | _ => false

/-- The persistence events of a trace: `AddInteraction` calls. -/
def Event.isAdd : Event → Bool
  | Event.addInteraction _ _ _ => true
  | _ => false

/-! ## The client: registration -/

/-- The parsed server URL (`*url.URL`): what `String()` prints and its `Host`. -/
structure ServerURL where
  text : Str
  Host : Str
deriving DecidableEq, Repr

/-- The record `Options` of the client. -/
structure Options where
  ServerURL : Str
  PersistentSession : Bool
deriving DecidableEq, Repr

/-- The record `Client`; the HTTP client and the key, which no function here
reads back, are left to the environment. -/
structure Client where
  correlationID : Str
  serverURL : ServerURL
  persistentSession : Bool
deriving DecidableEq, Repr

/-- Modelled from the spec: the register request `{correlationID, publicKey}`;
the type is declared outside the two files. -/
structure RegisterRequest where
  PublicKey : Str
  CorrelationID : Str
deriving DecidableEq, Repr

/-- The request `retryablehttp.NewRequest` builds, with its `ContentLength`. -/
structure Request where
  method : Str
  URL : Str
  body : Str
  ContentLength : Int
deriving DecidableEq, Repr

/-- The response of the transport; only `StatusCode` is read. -/
structure Response where
  StatusCode : Int
deriving DecidableEq, Repr

/-- The collaborators `New` and `generateRSAKeyPair` call. A Go call returning
`(value, err)` is an `Except`. -/
structure ClientEnv where
  /-- The call `url.Parse`. -/
  urlParse : Str → Except Error ServerURL
  /-- The value of `xid.New().String()`. -/
  xidNew : Str
  /-- The call `rsa.GenerateKey(rand.Reader, 2048)`; the key is its public part. -/
  rsaGenerateKey : Except Error Str
  /-- The gob encoding of the public key. -/
  gobEncode : Str → Except Error Str
  /-- The call `jsoniter.Marshal(register)`. -/
  jsonMarshal : RegisterRequest → Except Error Str
  /-- The call `retryablehttp.NewRequest(method, URL, body)`. -/
  newRequest : Str → Str → Str → Except Error Request
  /-- The call `httpClient.Do(req)`, retries included. -/
  httpDo : Request → Except Error Response

/-- The function `errors.Wrap` of `github.com/pkg/errors`: it annotates an
error with a message and, as its documentation says, returns nil when the
error it is given is nil. -/
def errorsWrap (err : Option Error) (message : String) : Option Error :=
  match err with
  | none => none
  | some e => some (message ++ ": " ++ e)

/-- The method `Client.generateRSAKeyPair`; `none` is the result `nil`. On the
non-200 branch the variable `err` is the one `httpClient.Do` assigned, which
is nil there. -/
def generateRSAKeyPair (env : ClientEnv) (c : Client) : Option Error :=
  match env.rsaGenerateKey with
  | Except.error err => errorsWrap (some err) "could not create rsa private key"
  | Except.ok publicKey =>
    match env.gobEncode publicKey with
    | Except.error err => errorsWrap (some err) "could not encode rsa public key"
    | Except.ok buffer =>
      let register : RegisterRequest := ⟨buffer, c.correlationID⟩
      match env.jsonMarshal register with
      | Except.error err => errorsWrap (some err) "could not marshal register request"
      | Except.ok data =>
        let URL := c.serverURL.text ++ lit "register"
        match env.newRequest (lit "POST") URL data with
        | Except.error err => errorsWrap (some err) "could not create new request"
        | Except.ok req =>
          let req := { req with ContentLength := (data.length : Int) }
          match env.httpDo req with
          | Except.error err => errorsWrap (some err) "could not make register request"
          | Except.ok resp =>
            let err : Option Error := none
            if resp.StatusCode ≠ 200 then errorsWrap err "could not register to server"
            else none

/-- The function `New`: the pair `(client, err)` it returns. -/
def New (env : ClientEnv) (options : Options) : Option Client × Option Error :=
  match env.urlParse options.ServerURL with
  | Except.error err => (none, errorsWrap (some err) "could not parse server URL")
  | Except.ok parsed =>
    let client : Client := ⟨env.xidNew, parsed, options.PersistentSession⟩
    match generateRSAKeyPair env client with
    | some err => (none, some err)
    | none => (some client, none)

/-! ## The client: minting identifiers -/

/-- The alphabet of z-base-32. -/
def zbase32Alphabet : Str :=
  lit "ybndrfg8ejkmcpqxot1uwisza345h769"

/-- The eight bits of a byte, most significant first. -/
def byteBits (b : Nat) : List Bool :=
  [decide (b / 128 % 2 = 1), decide (b / 64 % 2 = 1), decide (b / 32 % 2 = 1),
   decide (b / 16 % 2 = 1), decide (b / 8 % 2 = 1), decide (b / 4 % 2 = 1),
   decide (b / 2 % 2 = 1), decide (b % 2 = 1)]

/-- The number five bits spell, most significant first. -/
def quintet (b0 b1 b2 b3 b4 : Bool) : Nat :=
  16 * b0.toNat + 8 * b1.toNat + 4 * b2.toNat + 2 * b3.toNat + b4.toNat

/-- A bit string cut into groups of five, the last group filled with zero bits. -/
def quintets : List Bool → List Nat
  | [] => []
  | [b0] => [quintet b0 false false false false]
  | [b0, b1] => [quintet b0 b1 false false false]
  | [b0, b1, b2] => [quintet b0 b1 b2 false false]
  | [b0, b1, b2, b3] => [quintet b0 b1 b2 b3 false]
  | b0 :: b1 :: b2 :: b3 :: b4 :: rest => quintet b0 b1 b2 b3 b4 :: quintets rest

/-- The call `zbase32.StdEncoding.EncodeToString` of `gopkg.in/corvus-ch/zbase32.v1`:
the bits of the input, most significant first, in groups of five, each group
written as a letter of the alphabet, with no padding letters. -/
def zbase32Encode (src : Str) : Str :=
  (quintets (src.flatMap byteBits)).map (fun q => zbase32Alphabet.getD q 0)

/-- The call `binary.BigEndian.PutUint32` on a `uint32`: its four bytes. -/
def putUint32 (v : Nat) : Str :=
  [v / 16777216 % 256, v / 65536 % 256, v / 256 % 256, v % 256]

/-- The seven bytes `random` of `Client.URL`: the timestamp as a big-endian
`uint32`, then `byte(i >> 16)`, `byte(i >> 8)`, `byte(i)`. -/
def randomBytes (now : Int) (i : Nat) : Str :=
  putUint32 (now % 4294967296).toNat ++ [i / 65536 % 256, i / 256 % 256, i % 256]

/-- The method `Client.URL`, with the clock reading `now` (`time.Now().Unix()`)
and the process-wide `objectIDCounter` as explicit state: the minted host name
and the counter after `atomic.AddUint32(&objectIDCounter, 1)`. -/
def URL (c : Client) (now : Int) (objectIDCounter : Nat) : Str × Nat :=
  let i := (objectIDCounter + 1) % 4294967296
  let random := randomBytes now i
  (c.correlationID ++ zbase32Encode random ++ lit "." ++ lit "" ++ c.serverURL.Host, i)

/-- Successive calls of `Client.URL` on one session, one clock reading per call. -/
def mintAll (c : Client) : List Int → Nat → List Str
  | [], _ => []
  | now :: rest, objectIDCounter =>
    (URL c now objectIDCounter).1 :: mintAll c rest (URL c now objectIDCounter).2

/-- The 7-byte suffixes `random` of successive calls of `Client.URL`, one
clock reading per call. -/
def suffixAll : List Int → Nat → List Str
  | [], _ => []
  | now :: rest, objectIDCounter =>
    randomBytes now ((objectIDCounter + 1) % 4294967296)
      :: suffixAll rest ((objectIDCounter + 1) % 4294967296)

/-! ## The client: payload reflection -/

/-- The loop `for _, part := range parts` of `URLReflection`: `randomID` is
overwritten by every part of length 32. -/
def scanReflection : List Str → Str → Str
  | [], randomID => randomID
  | part :: rest, randomID =>
    if part.length = 32 then scanReflection rest part else scanReflection rest randomID

/-- The loop `for i, j := 0, len(rns)-1; i < j; i, j = i+1, j-1` that swaps
`rns[i]` and `rns[j]`; `fuel` bounds the number of iterations. -/
def swapLoop : Nat → List Nat → Nat → Nat → List Nat
  | 0, rns, _, _ => rns
  | fuel + 1, rns, i, j =>
    if i < j then
      swapLoop fuel ((rns.set i (rns.getD j 0)).set j (rns.getD i 0)) (i + 1) (j - 1)
    else rns

/-- The function `URLReflection`. The swap loop gets one unit of fuel per rune,
more than the half it needs. -/
def URLReflection (URL : Str) : Str :=
  let parts := split dot URL
  let randomID := scanReflection parts []
  let rns := runesOfString randomID
  stringOfRunes (swapLoop rns.length rns 0 (rns.length - 1))

/-- The reference definition of payload reflection, in the words of the
specification: the last label of length 32 (none: the empty string) with its
characters in reverse order. -/
def reflectionSpec (address : Str) : Str :=
  let labels := (split dot address).filter (fun l => decide (l.length = 32))
  stringOfRunes (runesOfString (labels.getLastD [])).reverse

/-! ## Example collaborators -/

/-- A store that holds one session, under `key`, with the callbacks `cbs`; a
DSL evaluator for which every predicate is true and the action `failing` is
an evaluation error; an encoder that never fails. -/
def exampleEnv (key : Str) (cbs : List Callback) (failing : Str) : Env Unit where
  getCorrelationDataByID := fun id s =>
    (if id = key then Except.ok ⟨cbs⟩ else Except.error "no session", s)
  evalAsBool := fun _ _ s => ((true, none), s)
  eval := fun code _ s => (if code = failing then some "evaluation error" else none, s)
  encode := fun i => Except.ok (i.Protocol ++ lit ":" ++ i.FullId)
  addInteraction := fun _ _ s => (none, s)
  splitHostPort := fun a => a
  now := fun _ => 0

/-- The recipient of the extraction example: a label of 20 "z" and 13 "y". -/
def exampleRcpt : Str :=
  lit "x@zzzzzzzzzzzzzzzzzzzzyyyyyyyyyyyyy.attacker.test"

/-- The correlation ID of the extraction example. -/
def exampleID : Str :=
  lit "zzzzzzzzzzzzzzzzzzzz"

/-- A label of 33 "a". -/
def labelA : Str :=
  lit "aaaaaaaaaaaaaaaaaaaaaaaaaaaaaaaaa"

/-- A label of 33 "b". -/
def labelB : Str :=
  lit "bbbbbbbbbbbbbbbbbbbbbbbbbbbbbbbbb"

/-- A recipient whose host part has two labels of length 33, `labelA` first. -/
def twoLabelRcpt : Str :=
  lit "x@" ++ labelA ++ lit "." ++ labelB ++ lit ".test"

/-- A transport and codecs that all succeed; the register call is answered
with the status code `status`. -/
def exampleClientEnv (status : Int) : ClientEnv where
  urlParse := fun u => Except.ok ⟨u, lit "interact.sh"⟩
  xidNew := lit "c23b2la0kl1krjcrdj10"
  rsaGenerateKey := Except.ok (lit "public-key")
  gobEncode := fun k => Except.ok k
  jsonMarshal := fun r => Except.ok (r.CorrelationID ++ r.PublicKey)
  newRequest := fun m u b => Except.ok ⟨m, u, b, 0⟩
  httpDo := fun _ => Except.ok ⟨status⟩

/-- The options of the registration example. -/
def exampleOptions : Options :=
  ⟨lit "https://interact.sh/", false⟩

/-- The session of the minting example: a correlation ID of 20 characters and
the server host "interact.sh". -/
def exampleClient : Client :=
  ⟨lit "c23b2la0kl1krjcrdj10", ⟨lit "https://interact.sh/", lit "interact.sh"⟩, false⟩

/-! ## Lemmas on the string primitives -/

theorem split_ne_nil (sep : Nat) (s : Str) : split sep s ≠ [] := by
  induction s with
  | nil => simp [split]
  | cons c cs ih =>
    unfold split
    split_ifs
    · simp
    · cases h : split sep cs with
      | nil => simp
      | cons p ps => simp

theorem split_length_le (sep : Nat) (s : Str) : ∀ p ∈ split sep s, p.length ≤ s.length := by
  induction s with
  | nil => simp [split]
  | cons c cs ih =>
    intro p hp
    unfold split at hp
    split_ifs at hp with hc
    · rcases List.mem_cons.mp hp with h | h
      · simp [h]
      · have := ih p h
        simp only [List.length_cons]
        omega
    · cases h : split sep cs with
      | nil => exact absurd h (split_ne_nil sep cs)
      | cons q qs =>
        rw [h] at hp ih
        rcases List.mem_cons.mp hp with h1 | h1
        · have := ih q (List.mem_cons_self _ _)
          simp only [h1, List.length_cons]
          omega
        · have := ih p (List.mem_cons_of_mem _ h1)
          simp only [List.length_cons]
          omega

theorem index_of_contains (sep : Nat) (s : Str) (h : contains s sep = true) :
    0 ≤ index sep s ∧ index sep s < s.length := by
  induction s with
  | nil => simp [contains] at h
  | cons c cs ih =>
    unfold index
    by_cases hc : c = sep
    · simp [hc]
    · have hcs : contains cs sep = true := by
        simpa [contains, hc] using h
      have := ih hcs
      have hne : index sep cs ≠ -1 := by omega
      simp only [hc, hne, if_false, List.length_cons, Nat.cast_add, Nat.cast_one]
      omega

theorem hostPart_length_lt (addr : Str) (h : contains addr at_sign = true) :
    (hostPart addr).length < addr.length := by
  have := index_of_contains at_sign addr h
  unfold hostPart sliceFrom
  rw [List.length_drop]
  omega

/-! ## Lemmas on the extraction loop -/

theorem scanParts_no_match (parts : List Str) (rest : List Str) (i : Nat) (ids : IDs)
    (h : ∀ p ∈ rest, p.length ≠ 33) : scanParts parts rest i ids = ids := by
  induction rest generalizing i ids with
  | nil => rfl
  | cons p ps ih =>
    have hp : p.length ≠ 33 := h p (List.mem_cons_self _ _)
    simp only [scanParts, hp, if_false]
    exact ih _ _ (fun q hq => h q (List.mem_cons_of_mem _ hq))

theorem scanParts_append (parts xs ys : List Str) (i : Nat) (ids : IDs) :
    scanParts parts (xs ++ ys) i ids
      = scanParts parts ys (i + xs.length) (scanParts parts xs i ids) := by
  induction xs generalizing i ids with
  | nil => rfl
  | cons p ps ih =>
    have hlen : i + (ps.length + 1) = i + 1 + ps.length := by omega
    simp only [List.cons_append, scanParts, List.length_cons, List.append_eq, hlen]
    split_ifs <;> exact ih _ _

/-- The inner loop ends on the values of the last part of length 33. -/
theorem scanParts_last_match (before after : List Str) (lab : Str) (ids : IDs)
    (hlab : lab.length = 33) (hafter : ∀ p ∈ after, p.length ≠ 33) :
    scanParts (before ++ lab :: after) (before ++ lab :: after) 0 ids
      = ⟨lab, join dot (before ++ [lab]), lab.take 20⟩ := by
  rw [scanParts_append]
  simp only [scanParts, hlab, if_true]
  rw [scanParts_no_match _ _ _ _ hafter]
  have hle : 0 + before.length + 1 ≤ (before ++ lab :: after).length := by
    simp only [List.length_append, List.length_cons]; omega
  have htake : (before ++ lab :: after).take (0 + before.length + 1) = before ++ [lab] := by
    have : before ++ lab :: after = (before ++ [lab]) ++ after := by simp
    rw [this, List.take_left']
    simp
  simp only [hle, if_true, htake]

/-- An address without a label of length 33 behind its "@" leaves the
variables as they are. -/
theorem scanAddr_no_match (ids : IDs) (addr : Str)
    (h : contains addr at_sign = true → ∀ p ∈ split dot (hostPart addr), p.length ≠ 33) :
    scanAddr ids addr = ids := by
  unfold scanAddr
  split_ifs with hg
  · exact scanParts_no_match _ _ _ _ (h hg.2)
  · rfl

theorem foldl_scanAddr_no_match (ids : IDs) (rcpts : List Str)
    (h : ∀ a ∈ rcpts, contains a at_sign = true →
      ∀ p ∈ split dot (hostPart a), p.length ≠ 33) :
    rcpts.foldl scanAddr ids = ids := by
  induction rcpts generalizing ids with
  | nil => rfl
  | cons a as ih =>
    simp only [List.foldl_cons]
    rw [scanAddr_no_match ids a (h a (List.mem_cons_self _ _))]
    exact ih ids (fun b hb => h b (List.mem_cons_of_mem _ hb))

/-- The length guard lets every address through that has an "@" and a label
of length 33 behind it. -/
theorem guard_of_label (addr : Str) (lab : Str) (hat : contains addr at_sign = true)
    (hmem : lab ∈ split dot (hostPart addr)) (hlab : lab.length = 33) :
    33 < addr.length := by
  have h1 := split_length_le dot (hostPart addr) lab hmem
  have h2 := hostPart_length_lt addr hat
  omega

/-- The extraction loop ends on the last label of length 33 of the last
recipient that carries one. -/
theorem extractIDs_last_match (pre post : List Str) (addr : Str) (before after : List Str)
    (lab : Str) (hat : contains addr at_sign = true)
    (hsplit : split dot (hostPart addr) = before ++ lab :: after)
    (hlab : lab.length = 33) (hafter : ∀ p ∈ after, p.length ≠ 33)
    (hpost : ∀ a ∈ post, contains a at_sign = true →
      ∀ p ∈ split dot (hostPart a), p.length ≠ 33) :
    extractIDs (pre ++ addr :: post) = ⟨lab, join dot (before ++ [lab]), lab.take 20⟩ := by
  have hguard : 33 < addr.length :=
    guard_of_label addr lab hat (by rw [hsplit]; simp) hlab
  unfold extractIDs
  rw [List.foldl_append, List.foldl_cons, foldl_scanAddr_no_match _ post hpost]
  unfold scanAddr
  simp only [hguard, hat, and_self, if_true, hsplit]
  exact scanParts_last_match before after lab _ hlab hafter

/-! ## Lemmas on the handler -/

theorem runCallbacks_no_add {σ : Type} (env : Env σ) (b : Binding) (cbs : List Callback)
    (s : σ) : (runCallbacks env b cbs s).trace.filter Event.isAdd = [] := by
  induction cbs generalizing s with
  | nil => rfl
  | cons cb rest ih =>
    unfold runCallbacks
    simp only
    split_ifs with hm
    · split
      · simp [Event.isAdd]
      · simp [Event.isAdd, ih]
    · simp [Event.isAdd, ih]

theorem persist_empty {σ : Type} (env : Env σ) (remoteAddr sender data : Str) (ids : IDs)
    (s : σ) (h : ids.uniqueID = []) : persist env remoteAddr sender data ids s = (s, []) := by
  simp [persist, h]

theorem persist_ok {σ : Type} (env : Env σ) (remoteAddr sender data : Str) (ids : IDs)
    (s : σ) (buffer : Str) (h : ids.uniqueID ≠ [])
    (henc : env.encode ⟨lit "smtp", ids.uniqueID, ids.fullID, data, sender,
      env.splitHostPort remoteAddr, env.now s⟩ = Except.ok buffer) :
    (persist env remoteAddr sender data ids s).2
      = [Event.addInteraction ids.correlationID
          ⟨lit "smtp", ids.uniqueID, ids.fullID, data, sender,
            env.splitHostPort remoteAddr, env.now s⟩ buffer] := by
  simp [persist, h, henc]

/-- An action that fails ends the handler: it returns the error right after
the failed call. -/
theorem defaultHandler_action_error {σ : Type} (env : Env σ) (remoteAddr sender : Str)
    (rcpts : List Str) (data : Str) (s : σ) (it : CorrelationData) (cb : Callback)
    (rest : List Callback) (err : Error)
    (hit : (env.getCorrelationDataByID (extractIDs rcpts).correlationID s).1 = Except.ok it)
    (hcbs : it.Callbacks = cb :: rest)
    (hpred : (env.evalAsBool cb.DSL ⟨remoteAddr, sender, rcpts, data⟩
      (env.getCorrelationDataByID (extractIDs rcpts).correlationID s).2).1.1 = true)
    (hact : (env.eval cb.Code ⟨remoteAddr, sender, rcpts, data⟩
      (env.evalAsBool cb.DSL ⟨remoteAddr, sender, rcpts, data⟩
        (env.getCorrelationDataByID (extractIDs rcpts).correlationID s).2).2).1 = some err) :
    (defaultHandler env remoteAddr sender rcpts data s).returned = some err ∧
    (defaultHandler env remoteAddr sender rcpts data s).trace
      = [Event.getCorrelationData (extractIDs rcpts).correlationID,
         Event.evalAsBool cb.DSL, Event.eval cb.Code] := by
  unfold defaultHandler
  simp only [hit, hcbs, runCallbacks, hpred, if_true, hact, and_self]

/-! ## The claims on the SMTP handler -/

/-- C2, evaluated on the code: a session with two callbacks whose predicates
are both true and whose first action is an evaluation error. The handler
returns that error after the first action; the predicate and the action of
the second callback are never evaluated. -/
theorem C2_second_callback_skipped :
    (defaultHandler
        (exampleEnv exampleID [⟨lit "first", lit "boom"⟩, ⟨lit "second", lit "fine"⟩] (lit "boom"))
        (lit "192.0.2.1:25") (lit "a@b.test") [exampleRcpt] (lit "DATA") ()).trace
      = [Event.getCorrelationData exampleID, Event.evalAsBool (lit "first"),
         Event.eval (lit "boom")] ∧
    (defaultHandler
        (exampleEnv exampleID [⟨lit "first", lit "boom"⟩, ⟨lit "second", lit "fine"⟩] (lit "boom"))
        (lit "192.0.2.1:25") (lit "a@b.test") [exampleRcpt] (lit "DATA") ()).returned
      = some "evaluation error" := by
  decide

/-- C3, evaluated on the code: a delivery from which a non-empty uniqueID is
extracted, to a session whose one callback has a true predicate and a failing
action. The handler returns the error before the persistence block: it makes
no AddInteraction call. -/
theorem C3_no_persist_after_action_error :
    (extractIDs [exampleRcpt]).uniqueID ≠ [] ∧
    (defaultHandler (exampleEnv exampleID [⟨lit "always", lit "boom"⟩] (lit "boom"))
        (lit "192.0.2.1:25") (lit "a@b.test") [exampleRcpt] (lit "DATA") ()).trace.filter
          Event.isAdd = [] ∧
    (defaultHandler (exampleEnv exampleID [⟨lit "always", lit "boom"⟩] (lit "boom"))
        (lit "192.0.2.1:25") (lit "a@b.test") [exampleRcpt] (lit "DATA") ()).returned
      = some "evaluation error" := by
  decide

/-- What holds of persistence on every path: with a non-empty uniqueID and an
encoder that does not fail, a run that returns nil makes exactly one
AddInteraction call, with the extracted IDs; a run that returns an error (a
failed callback action) makes none. -/
theorem defaultHandler_persist_cases {σ : Type} (env : Env σ) (remoteAddr sender : Str)
    (rcpts : List Str) (data : Str) (s : σ)
    (hid : (extractIDs rcpts).uniqueID ≠ [])
    (henc : ∀ i, ∃ buffer, env.encode i = Except.ok buffer) :
    ((defaultHandler env remoteAddr sender rcpts data s).returned = none →
      ∃ interaction buffer,
        (defaultHandler env remoteAddr sender rcpts data s).trace.filter Event.isAdd
          = [Event.addInteraction (extractIDs rcpts).correlationID interaction buffer] ∧
        interaction.Protocol = lit "smtp" ∧
        interaction.UniqueID = (extractIDs rcpts).uniqueID ∧
        interaction.FullId = (extractIDs rcpts).fullID) ∧
    (∀ err, (defaultHandler env remoteAddr sender rcpts data s).returned = some err →
      (defaultHandler env remoteAddr sender rcpts data s).trace.filter Event.isAdd = []) := by
  have hp : ∀ s', ∃ interaction buffer,
      (persist env remoteAddr sender data (extractIDs rcpts) s').2
        = [Event.addInteraction (extractIDs rcpts).correlationID interaction buffer] ∧
      interaction.Protocol = lit "smtp" ∧
      interaction.UniqueID = (extractIDs rcpts).uniqueID ∧
      interaction.FullId = (extractIDs rcpts).fullID := by
    intro s'
    obtain ⟨buffer, hbuf⟩ := henc ⟨lit "smtp", (extractIDs rcpts).uniqueID,
      (extractIDs rcpts).fullID, data, sender, env.splitHostPort remoteAddr, env.now s'⟩
    exact ⟨_, buffer, persist_ok env remoteAddr sender data _ s' buffer hid hbuf, rfl, rfl, rfl⟩
  unfold defaultHandler
  cases hl : (env.getCorrelationDataByID (extractIDs rcpts).correlationID s).1 with
  | error e =>
    obtain ⟨i, b, hpe, h1, h2, h3⟩ :=
      hp (env.getCorrelationDataByID (extractIDs rcpts).correlationID s).2
    simp only [hl, hpe]
    exact ⟨fun _ => ⟨i, b, by simp [Event.isAdd], h1, h2, h3⟩, fun err h => by simp at h⟩
  | ok it =>
    simp only [hl]
    cases hr : (runCallbacks env ⟨remoteAddr, sender, rcpts, data⟩ it.Callbacks
        (env.getCorrelationDataByID (extractIDs rcpts).correlationID s).2).returned with
    | some err =>
      simp only [hr]
      exact ⟨fun h => by simp at h, fun _ _ => by simp [Event.isAdd, runCallbacks_no_add]⟩
    | none =>
      obtain ⟨i, b, hpe, h1, h2, h3⟩ :=
        hp (runCallbacks env ⟨remoteAddr, sender, rcpts, data⟩ it.Callbacks
          (env.getCorrelationDataByID (extractIDs rcpts).correlationID s).2).state
      simp only [hr, hpe]
      exact ⟨fun _ => ⟨i, b, by simp [Event.isAdd, runCallbacks_no_add], h1, h2, h3⟩,
        fun err h => by simp at h⟩

/-- C8, evaluated on the code: the lookup of line 103 stands outside the guard
`uniqueID != ""` that the persistence block has, so the handler looks the
session up also when nothing was extracted, under the empty correlation ID.
With a store that holds a session under the empty ID, a delivery to
"user@short.domain.com" (no label of length 33) evaluates that session's
callback predicate and action. -/
theorem C8_callbacks_run_without_match :
    (∀ a ∈ [lit "user@short.domain.com"], contains a at_sign = true →
      ∀ p ∈ split dot (hostPart a), p.length ≠ 33) ∧
    (defaultHandler (exampleEnv [] [⟨lit "always", lit "notify"⟩] (lit "boom"))
        (lit "192.0.2.1:25") (lit "a@b.test") [lit "user@short.domain.com"] (lit "DATA")
        ()).trace
      = [Event.getCorrelationData [], Event.evalAsBool (lit "always"),
         Event.eval (lit "notify")] := by
  decide

/-- What holds of a delivery without a match on every path: when no recipient
has a label of length 33 behind its "@", the handler makes no AddInteraction
call, whatever the store holds; and on the runs in which the lookup of the
empty correlation ID yields no callbacks, that lookup is its only call and it
returns nil. -/
theorem defaultHandler_no_match {σ : Type} (env : Env σ) (remoteAddr sender : Str)
    (rcpts : List Str) (data : Str) (s : σ)
    (h : ∀ a ∈ rcpts, contains a at_sign = true →
      ∀ p ∈ split dot (hostPart a), p.length ≠ 33) :
    (defaultHandler env remoteAddr sender rcpts data s).trace.filter Event.isAdd = [] ∧
    ((∀ it, (env.getCorrelationDataByID [] s).1 = Except.ok it → it.Callbacks = []) →
      (defaultHandler env remoteAddr sender rcpts data s).trace
        = [Event.getCorrelationData []] ∧
      (defaultHandler env remoteAddr sender rcpts data s).returned = none) := by
  have hids : extractIDs rcpts = ⟨[], [], []⟩ := foldl_scanAddr_no_match _ rcpts h
  unfold defaultHandler
  simp only [hids]
  constructor
  · cases hl : (env.getCorrelationDataByID [] s).1 with
    | error e => simp [persist_empty, Event.isAdd]
    | ok it =>
      simp only
      split
      · simp [Event.isAdd, runCallbacks_no_add]
      · simp [persist_empty, Event.isAdd, runCallbacks_no_add]
  · intro hno
    cases hl : (env.getCorrelationDataByID [] s).1 with
    | error e => simp [persist_empty]
    | ok it =>
      have hcb : it.Callbacks = [] := hno it hl
      simp [hcb, runCallbacks, persist_empty]

/-- C9: when a non-empty uniqueID was extracted and the lookup of its
correlation ID returns an error, the handler evaluates no callback, makes
exactly one AddInteraction call, for that correlation ID and with the
"smtp" interaction of the extracted IDs, and returns nil (the JSON encoder
being one that does not fail). -/
theorem C9_correlation_miss {σ : Type} (env : Env σ) (remoteAddr sender : Str)
    (rcpts : List Str) (data : Str) (s : σ) (e : Error)
    (hid : (extractIDs rcpts).uniqueID ≠ [])
    (hmiss : (env.getCorrelationDataByID (extractIDs rcpts).correlationID s).1
      = Except.error e)
    (henc : ∀ i, ∃ buffer, env.encode i = Except.ok buffer) :
    (defaultHandler env remoteAddr sender rcpts data s).returned = none ∧
    (defaultHandler env remoteAddr sender rcpts data s).trace.filter Event.isCallback = [] ∧
    ∃ interaction buffer,
      env.encode interaction = Except.ok buffer ∧
      interaction.Protocol = lit "smtp" ∧
      interaction.UniqueID = (extractIDs rcpts).uniqueID ∧
      interaction.FullId = (extractIDs rcpts).fullID ∧
      (defaultHandler env remoteAddr sender rcpts data s).trace
        = [Event.getCorrelationData (extractIDs rcpts).correlationID,
           Event.addInteraction (extractIDs rcpts).correlationID interaction buffer] := by
  obtain ⟨buffer, hbuf⟩ := henc ⟨lit "smtp", (extractIDs rcpts).uniqueID,
    (extractIDs rcpts).fullID, data, sender, env.splitHostPort remoteAddr,
    env.now (env.getCorrelationDataByID (extractIDs rcpts).correlationID s).2⟩
  have hp := persist_ok env remoteAddr sender data (extractIDs rcpts)
    (env.getCorrelationDataByID (extractIDs rcpts).correlationID s).2 buffer hid hbuf
  have htrace : (defaultHandler env remoteAddr sender rcpts data s).trace
      = [Event.getCorrelationData (extractIDs rcpts).correlationID,
         Event.addInteraction (extractIDs rcpts).correlationID
           ⟨lit "smtp", (extractIDs rcpts).uniqueID, (extractIDs rcpts).fullID, data, sender,
             env.splitHostPort remoteAddr,
             env.now (env.getCorrelationDataByID (extractIDs rcpts).correlationID s).2⟩
           buffer] := by
    unfold defaultHandler
    simp only [hmiss, hp, List.singleton_append]
  have hret : (defaultHandler env remoteAddr sender rcpts data s).returned = none := by
    unfold defaultHandler
    simp only [hmiss]
  refine ⟨hret, ?_, _, buffer, hbuf, rfl, rfl, rfl, htrace⟩
  rw [htrace]
  rfl

/-- C9 at the extraction example, with a store that holds no session for the
extracted correlation ID. -/
theorem C9_correlation_miss_witness :
    (defaultHandler (exampleEnv (lit "other") [⟨lit "always", lit "notify"⟩] (lit "boom"))
        (lit "192.0.2.1:25") (lit "a@b.test") [exampleRcpt] (lit "DATA") ()).returned = none ∧
    (defaultHandler (exampleEnv (lit "other") [⟨lit "always", lit "notify"⟩] (lit "boom"))
        (lit "192.0.2.1:25") (lit "a@b.test") [exampleRcpt] (lit "DATA") ()).trace.filter
          Event.isCallback = [] ∧
    ∃ interaction buffer,
      (exampleEnv (lit "other") [⟨lit "always", lit "notify"⟩] (lit "boom")).encode interaction
        = Except.ok buffer ∧
      interaction.Protocol = lit "smtp" ∧
      interaction.UniqueID = (extractIDs [exampleRcpt]).uniqueID ∧
      interaction.FullId = (extractIDs [exampleRcpt]).fullID ∧
      (defaultHandler (exampleEnv (lit "other") [⟨lit "always", lit "notify"⟩] (lit "boom"))
        (lit "192.0.2.1:25") (lit "a@b.test") [exampleRcpt] (lit "DATA") ()).trace
        = [Event.getCorrelationData (extractIDs [exampleRcpt]).correlationID,
           Event.addInteraction (extractIDs [exampleRcpt]).correlationID interaction buffer] :=
  C9_correlation_miss _ _ _ _ _ _ "no session" (by decide) rfl
    (fun i => ⟨_, rfl⟩)

/-! ## The claims on identifier extraction -/

/-- C4: when exactly one recipient has an "@" and, behind its first "@",
exactly one label of length 33, and no other recipient has such a label, the
extraction loop ends with uniqueID that label, correlationID its first 20
bytes and fullID the host labels up to and including it joined by "."; the
length guard lets the address through. -/
theorem C4_smtp_extraction (pre post : List Str) (addr : Str) (before after : List Str)
    (lab : Str) (hat : contains addr at_sign = true)
    (hsplit : split dot (hostPart addr) = before ++ lab :: after)
    (hlab : lab.length = 33)
    (_hbefore : ∀ p ∈ before, p.length ≠ 33) (hafter : ∀ p ∈ after, p.length ≠ 33)
    (hothers : ∀ a ∈ pre ++ post, contains a at_sign = true →
      ∀ p ∈ split dot (hostPart a), p.length ≠ 33) :
    33 < addr.length ∧
    (extractIDs (pre ++ addr :: post)).uniqueID = lab ∧
    (extractIDs (pre ++ addr :: post)).correlationID = lab.take 20 ∧
    (extractIDs (pre ++ addr :: post)).fullID = join dot (before ++ [lab]) := by
  have h := extractIDs_last_match pre post addr before after lab hat hsplit hlab hafter
    (fun a ha => hothers a (List.mem_append_right _ ha))
  refine ⟨guard_of_label addr lab hat (by rw [hsplit]; simp) hlab, ?_, ?_, ?_⟩ <;> rw [h]

/-- C4 at the recipient list of the specification's example. -/
theorem C4_smtp_extraction_witness :
    33 < exampleRcpt.length ∧
    (extractIDs [exampleRcpt]).uniqueID = lit "zzzzzzzzzzzzzzzzzzzzyyyyyyyyyyyyy" ∧
    (extractIDs [exampleRcpt]).correlationID = lit "zzzzzzzzzzzzzzzzzzzz" ∧
    (extractIDs [exampleRcpt]).fullID = lit "zzzzzzzzzzzzzzzzzzzzyyyyyyyyyyyyy" :=
  C4_smtp_extraction [] [] exampleRcpt [] [lit "attacker", lit "test"]
    (lit "zzzzzzzzzzzzzzzzzzzzyyyyyyyyyyyyy") (by decide) (by decide) (by decide)
    (by decide) (by decide) (by decide)

/-- C10 as stated fails: the scan over the labels does not stop at a match.
For a recipient whose host part has the two labels of length 33 `labelA` and
then `labelB`, the first such label is `labelA`, yet the extracted uniqueID
is `labelB` and fullID runs up to `labelB`. -/
theorem C10_first_label_does_not_win :
    contains twoLabelRcpt at_sign = true ∧
    (split dot (hostPart twoLabelRcpt)).filter (fun p => decide (p.length = 33))
      = [labelA, labelB] ∧
    (split dot (hostPart twoLabelRcpt)).find? (fun p => decide (p.length = 33))
      = some labelA ∧
    (extractIDs [twoLabelRcpt]).uniqueID = labelB ∧
    (extractIDs [twoLabelRcpt]).uniqueID ≠ labelA ∧
    (extractIDs [twoLabelRcpt]).correlationID ≠ labelA.take 20 ∧
    (extractIDs [twoLabelRcpt]).fullID = labelA ++ lit "." ++ labelB := by
  decide

/-- C10, amended: the last label of length 33 wins. For a recipient with an
"@" whose host part has one or more labels of length 33, and which no
recipient carrying such a label follows, the extracted uniqueID is the last
such label of its host part, correlationID is that label's first 20 bytes and
fullID is the host labels up to and including that last label joined by ".". -/
theorem C10_last_label_wins (pre post : List Str) (addr : Str) (before after : List Str)
    (lab : Str) (hat : contains addr at_sign = true)
    (hsplit : split dot (hostPart addr) = before ++ lab :: after)
    (hlab : lab.length = 33) (hafter : ∀ p ∈ after, p.length ≠ 33)
    (hpost : ∀ a ∈ post, contains a at_sign = true →
      ∀ p ∈ split dot (hostPart a), p.length ≠ 33) :
    (extractIDs (pre ++ addr :: post)).uniqueID = lab ∧
    (extractIDs (pre ++ addr :: post)).correlationID = lab.take 20 ∧
    (extractIDs (pre ++ addr :: post)).fullID = join dot (before ++ [lab]) := by
  have h := extractIDs_last_match pre post addr before after lab hat hsplit hlab hafter hpost
  refine ⟨?_, ?_, ?_⟩ <;> rw [h]

/-- C10, amended, at the recipient with the labels `labelA` and `labelB`,
behind a first recipient that carries a label of its own. -/
theorem C10_last_label_wins_witness :
    (extractIDs [exampleRcpt, twoLabelRcpt]).uniqueID = labelB ∧
    (extractIDs [exampleRcpt, twoLabelRcpt]).correlationID = labelB.take 20 ∧
    (extractIDs [exampleRcpt, twoLabelRcpt]).fullID = join dot [labelA, labelB] :=
  C10_last_label_wins [exampleRcpt] [] twoLabelRcpt [labelA] [lit "test"] labelB
    (by decide) (by decide) (by decide) (by decide) (by decide)

/-! ## The claims on the client -/

/-- Whatever the status code, once the transport has returned a response
without an error `generateRSAKeyPair` returns nil: on the non-200 branch it
wraps the nil error of the transport. -/
theorem generateRSAKeyPair_of_response (env : ClientEnv) (c : Client) (publicKey buffer : Str)
    (data : Str) (req : Request) (resp : Response)
    (hkey : env.rsaGenerateKey = Except.ok publicKey)
    (hgob : env.gobEncode publicKey = Except.ok buffer)
    (hjson : env.jsonMarshal ⟨buffer, c.correlationID⟩ = Except.ok data)
    (hreq : env.newRequest (lit "POST") (c.serverURL.text ++ lit "register") data
      = Except.ok req)
    (hdo : env.httpDo { req with ContentLength := (data.length : Int) } = Except.ok resp) :
    generateRSAKeyPair env c = none := by
  unfold generateRSAKeyPair
  simp only [hkey, hgob, hjson, hreq, hdo]
  split_ifs <;> rfl

/-- C1, evaluated on the code: the server URL parses and the transport returns
a response with status 404 and no error. `generateRSAKeyPair` returns nil and
`New` returns the client with a nil error. -/
theorem C1_non200_register_returns_client :
    (404 : Int) ≠ 200 ∧
    generateRSAKeyPair (exampleClientEnv 404)
      ⟨lit "c23b2la0kl1krjcrdj10", ⟨lit "https://interact.sh/", lit "interact.sh"⟩, false⟩
      = none ∧
    New (exampleClientEnv 404) exampleOptions
      = (some ⟨lit "c23b2la0kl1krjcrdj10", ⟨lit "https://interact.sh/", lit "interact.sh"⟩,
          false⟩, none) := by
  decide

/-- Every identifier the client mints for a correlation ID of 20 bytes has 32
bytes: 20 and the 12 letters that encode the 7 random bytes. -/
theorem minted_label_length (c : Client) (now : Int) (i : Nat)
    (h : c.correlationID.length = 20) :
    (c.correlationID ++ zbase32Encode (randomBytes now i)).length = 32 := by
  simp [zbase32Encode, randomBytes, putUint32, byteBits, quintets, h]

/-- C5, evaluated on the code: a session with a correlation ID of 20
characters and the host "interact.sh", at the clock reading 1600000000 and
the counter 0. The minted host name starts with a label of 32 bytes, the
handler looks for a label of 33, and the address "user@" followed by the host
name resolves to the empty correlation ID, not to the session's. -/
theorem C5_minted_name_not_resolved :
    exampleClient.correlationID.length = 20 ∧
    (URL exampleClient 1600000000 0).1 = lit "c23b2la0kl1krjcrdj10m7xbyyyyyyyo.interact.sh" ∧
    (split dot (URL exampleClient 1600000000 0).1).map List.length = [32, 8, 2] ∧
    (extractIDs [lit "user@" ++ (URL exampleClient 1600000000 0).1]).correlationID = [] ∧
    (extractIDs [lit "user@" ++ (URL exampleClient 1600000000 0).1]).correlationID
      ≠ exampleClient.correlationID := by
  decide

/-! ## Lemmas on z-base-32 -/

theorem bit_eq_of_decide (x y : Nat) (h : decide (x % 2 = 1) = decide (y % 2 = 1)) :
    x % 2 = y % 2 := by
  have h2 : (x % 2 = 1 ↔ y % 2 = 1) := decide_eq_decide.mp h
  omega

theorem byteBits_inj (a b : Nat) (ha : a < 256) (hb : b < 256)
    (h : byteBits a = byteBits b) : a = b := by
  unfold byteBits at h
  injection h with h7 h
  injection h with h6 h
  injection h with h5 h
  injection h with h4 h
  injection h with h3 h
  injection h with h2 h
  injection h with h1 h
  injection h with h0 h
  have e7 := bit_eq_of_decide _ _ h7
  have e6 := bit_eq_of_decide _ _ h6
  have e5 := bit_eq_of_decide _ _ h5
  have e4 := bit_eq_of_decide _ _ h4
  have e3 := bit_eq_of_decide _ _ h3
  have e2 := bit_eq_of_decide _ _ h2
  have e1 := bit_eq_of_decide _ _ h1
  have e0 := bit_eq_of_decide (a / 1) (b / 1) (by simpa using h0)
  omega

theorem byteBits_length (a : Nat) : (byteBits a).length = 8 := rfl

theorem flatMap_byteBits_inj (xs ys : Str) (hlen : xs.length = ys.length)
    (hx : ∀ x ∈ xs, x < 256) (hy : ∀ y ∈ ys, y < 256)
    (h : xs.flatMap byteBits = ys.flatMap byteBits) : xs = ys := by
  induction xs generalizing ys with
  | nil =>
    cases ys with
    | nil => rfl
    | cons y ys => simp at hlen
  | cons x xs ih =>
    cases ys with
    | nil => simp at hlen
    | cons y ys =>
      simp only [List.flatMap_cons] at h
      have h2 := List.append_inj h (by simp [byteBits_length])
      have hxy : x = y := byteBits_inj x y (hx x (List.mem_cons_self _ _))
        (hy y (List.mem_cons_self _ _)) h2.1
      have hrest : xs = ys := ih ys (by simpa using hlen)
        (fun a ha => hx a (List.mem_cons_of_mem _ ha))
        (fun a ha => hy a (List.mem_cons_of_mem _ ha)) h2.2
      rw [hxy, hrest]

theorem quintet_lt (b0 b1 b2 b3 b4 : Bool) : quintet b0 b1 b2 b3 b4 < 32 := by
  cases b0 <;> cases b1 <;> cases b2 <;> cases b3 <;> cases b4 <;> decide

theorem quintet_inj : ∀ (a0 a1 a2 a3 a4 b0 b1 b2 b3 b4 : Bool),
    quintet a0 a1 a2 a3 a4 = quintet b0 b1 b2 b3 b4 →
      a0 = b0 ∧ a1 = b1 ∧ a2 = b2 ∧ a3 = b3 ∧ a4 = b4 := by
  decide

theorem quintets_lt (bits : List Bool) : ∀ q ∈ quintets bits, q < 32 := by
  induction bits using quintets.induct with
  | case1 => simp [quintets]
  | case2 b0 => simp [quintets, quintet_lt]
  | case3 b0 b1 => simp [quintets, quintet_lt]
  | case4 b0 b1 b2 => simp [quintets, quintet_lt]
  | case5 b0 b1 b2 b3 => simp [quintets, quintet_lt]
  | case6 b0 b1 b2 b3 b4 rest ih =>
    intro q hq
    simp only [quintets, List.mem_cons] at hq
    rcases hq with h | h
    · rw [h]; exact quintet_lt _ _ _ _ _
    · exact ih q h

theorem quintets_inj (xs ys : List Bool) (hlen : xs.length = ys.length)
    (h : quintets xs = quintets ys) : xs = ys := by
  induction xs using quintets.induct generalizing ys with
  | case1 =>
    cases ys with
    | nil => rfl
    | cons y ys => simp at hlen
  | case2 b0 =>
    rcases ys with _ | ⟨c0, _ | ⟨c1, ys⟩⟩
    · simp at hlen
    · simp only [quintets, List.cons.injEq, and_true] at h
      simp [(quintet_inj _ _ _ _ _ _ _ _ _ _ h).1]
    · simp at hlen
  | case3 b0 b1 =>
    rcases ys with _ | ⟨c0, _ | ⟨c1, _ | ⟨c2, ys⟩⟩⟩
    · simp at hlen
    · simp at hlen
    · simp only [quintets, List.cons.injEq, and_true] at h
      have q := quintet_inj _ _ _ _ _ _ _ _ _ _ h
      simp [q.1, q.2.1]
    · simp at hlen
  | case4 b0 b1 b2 =>
    rcases ys with _ | ⟨c0, _ | ⟨c1, _ | ⟨c2, _ | ⟨c3, ys⟩⟩⟩⟩
    · simp at hlen
    · simp at hlen
    · simp at hlen
    · simp only [quintets, List.cons.injEq, and_true] at h
      have q := quintet_inj _ _ _ _ _ _ _ _ _ _ h
      simp [q.1, q.2.1, q.2.2.1]
    · simp at hlen
  | case5 b0 b1 b2 b3 =>
    rcases ys with _ | ⟨c0, _ | ⟨c1, _ | ⟨c2, _ | ⟨c3, _ | ⟨c4, ys⟩⟩⟩⟩⟩
    · simp at hlen
    · simp at hlen
    · simp at hlen
    · simp at hlen
    · simp only [quintets, List.cons.injEq, and_true] at h
      have q := quintet_inj _ _ _ _ _ _ _ _ _ _ h
      simp [q.1, q.2.1, q.2.2.1, q.2.2.2.1]
    · simp at hlen
  | case6 b0 b1 b2 b3 b4 rest ih =>
    rcases ys with _ | ⟨c0, _ | ⟨c1, _ | ⟨c2, _ | ⟨c3, _ | ⟨c4, ys⟩⟩⟩⟩⟩
    · simp at hlen
    · simp at hlen
    · simp at hlen
    · simp at hlen
    · simp at hlen
    · simp only [quintets, List.cons.injEq] at h
      have q := quintet_inj _ _ _ _ _ _ _ _ _ _ h.1
      have hr : rest = ys := ih ys (by simpa using hlen) h.2
      simp [q.1, q.2.1, q.2.2.1, q.2.2.2.1, q.2.2.2.2, hr]

theorem alphabet_inj : ∀ a, a < 32 → ∀ b, b < 32 →
    zbase32Alphabet.getD a 0 = zbase32Alphabet.getD b 0 → a = b := by
  decide

theorem map_alphabet_inj (xs ys : List Nat) (hx : ∀ x ∈ xs, x < 32) (hy : ∀ y ∈ ys, y < 32)
    (h : xs.map (fun q => zbase32Alphabet.getD q 0) = ys.map (fun q => zbase32Alphabet.getD q 0)) :
    xs = ys := by
  induction xs generalizing ys with
  | nil =>
    cases ys with
    | nil => rfl
    | cons y ys => simp at h
  | cons x xs ih =>
    cases ys with
    | nil => simp at h
    | cons y ys =>
      simp only [List.map_cons, List.cons.injEq] at h
      have hxy : x = y := alphabet_inj x (hx x (List.mem_cons_self _ _)) y
        (hy y (List.mem_cons_self _ _)) h.1
      have hr : xs = ys := ih ys (fun a ha => hx a (List.mem_cons_of_mem _ ha))
        (fun a ha => hy a (List.mem_cons_of_mem _ ha)) h.2
      rw [hxy, hr]

/-- The encoding is injective on byte strings of one length. -/
theorem zbase32Encode_inj (xs ys : Str) (hlen : xs.length = ys.length)
    (hx : ∀ x ∈ xs, x < 256) (hy : ∀ y ∈ ys, y < 256)
    (h : zbase32Encode xs = zbase32Encode ys) : xs = ys := by
  unfold zbase32Encode at h
  have hq := map_alphabet_inj _ _ (quintets_lt _) (quintets_lt _) h
  have hbl : ∀ zs : Str, (zs.flatMap byteBits).length = 8 * zs.length := by
    intro zs
    induction zs with
    | nil => rfl
    | cons z zs ih => simp only [List.flatMap_cons, List.length_append, byteBits_length, ih,
        List.length_cons]; omega
  have hbits := quintets_inj _ _ (by rw [hbl, hbl, hlen]) hq
  exact flatMap_byteBits_inj xs ys hlen hx hy hbits

/-! ## Lemmas on minting -/

theorem randomBytes_length (now : Int) (i : Nat) : (randomBytes now i).length = 7 := rfl

theorem randomBytes_lt (now : Int) (i : Nat) : ∀ b ∈ randomBytes now i, b < 256 := by
  intro b hb
  simp only [randomBytes, putUint32, List.cons_append, List.nil_append, List.mem_cons,
    List.mem_singleton, List.not_mem_nil, or_false] at hb
  rcases hb with h | h | h | h | h | h | h <;> rw [h] <;> exact Nat.mod_lt _ (by decide)

/-- Two suffixes are equal only if the counters agree in their low 24 bits. -/
theorem randomBytes_counter (n1 n2 : Int) (i1 i2 : Nat)
    (h : randomBytes n1 i1 = randomBytes n2 i2) : i1 % 16777216 = i2 % 16777216 := by
  simp only [randomBytes, putUint32, List.cons_append, List.nil_append, List.cons.injEq,
    and_true] at h
  obtain ⟨_, _, _, _, h4, h5, h6⟩ := h
  omega

/-- The suffixes of two calls that are `d` increments apart, `0 < d < 2^24`,
differ, and so do their encodings. -/
theorem suffix_distinct (n1 n2 : Int) (k d : Nat) (hd : 0 < d) (hd2 : d < 16777216) :
    zbase32Encode (randomBytes n1 ((k + 1) % 4294967296))
      ≠ zbase32Encode (randomBytes n2 ((k + d + 1) % 4294967296)) := by
  intro h
  have hb := zbase32Encode_inj _ _ (by rw [randomBytes_length, randomBytes_length])
    (randomBytes_lt _ _) (randomBytes_lt _ _) h
  have hc := randomBytes_counter _ _ _ _ hb
  omega

theorem URL_ne (c : Client) (n1 n2 : Int) (k d : Nat) (hd : 0 < d) (hd2 : d < 16777216) :
    (URL c n1 k).1 ≠ (URL c n2 (k + d)).1 := by
  intro h
  simp only [URL, List.append_assoc, List.append_cancel_left_eq,
    List.append_cancel_right_eq] at h
  exact suffix_distinct n1 n2 k d hd hd2 h

theorem URL_congr (c : Client) (now : Int) (a b : Nat)
    (h : (a + 1) % 4294967296 = (b + 1) % 4294967296) : (URL c now a).1 = (URL c now b).1 := by
  simp only [URL, h]

theorem mem_mintAll (c : Client) (secs : List Int) (k : Nat) :
    ∀ u ∈ mintAll c secs k, ∃ now d, d < secs.length ∧ u = (URL c now (k + d)).1 := by
  induction secs generalizing k with
  | nil => simp [mintAll]
  | cons now rest ih =>
    intro u hu
    simp only [mintAll, List.mem_cons] at hu
    rcases hu with h | h
    · exact ⟨now, 0, by simp, by rw [h]; rfl⟩
    · obtain ⟨n', d, hd, hu⟩ := ih _ u h
      refine ⟨n', d + 1, by simp only [List.length_cons]; omega, ?_⟩
      rw [hu]
      apply URL_congr
      simp only [URL]
      omega

/-- Up to 2^24 successive calls on one session return distinct host names. -/
theorem mintAll_nodup (c : Client) (secs : List Int) (k : Nat)
    (h : secs.length ≤ 16777216) : (mintAll c secs k).Nodup := by
  induction secs generalizing k with
  | nil => simp [mintAll]
  | cons now rest ih =>
    simp only [mintAll, List.nodup_cons]
    simp only [List.length_cons] at h
    refine ⟨?_, ih _ (by omega)⟩
    intro hmem
    obtain ⟨n', d, hd, hu⟩ := mem_mintAll c rest _ _ hmem
    have hcong : (URL c n' ((URL c now k).2 + d)).1 = (URL c n' (k + (d + 1))).1 := by
      apply URL_congr
      simp only [URL]
      omega
    rw [hcong] at hu
    exact URL_ne c now n' k (d + 1) (by omega) (by omega) hu

theorem mintAll_eq_map (c : Client) (secs : List Int) (k : Nat) :
    mintAll c secs k
      = ((suffixAll secs k).map zbase32Encode).map
          (fun e => c.correlationID ++ e ++ lit "." ++ lit "" ++ c.serverURL.Host) := by
  induction secs generalizing k with
  | nil => rfl
  | cons now rest ih =>
    simp only [mintAll, suffixAll, List.map_cons]
    rw [← ih]
    rfl

/-- C6: with the counter as explicit state advanced by one per call, up to
10,000 successive calls of `Client.URL` on one session return pairwise
distinct host names, for every initial counter value (wrap-around at 2^24 and
2^32 included) and every sequence of clock readings; the 7-byte suffixes and
their z-base-32 encodings are pairwise distinct as well. -/
theorem C6_minted_names_distinct (c : Client) (secs : List Int) (objectIDCounter : Nat)
    (hN : secs.length ≤ 10000) :
    (mintAll c secs objectIDCounter).Nodup ∧
    (suffixAll secs objectIDCounter).Nodup ∧
    ((suffixAll secs objectIDCounter).map zbase32Encode).Nodup := by
  have h := mintAll_nodup c secs objectIDCounter (by omega)
  have h2 := h
  rw [mintAll_eq_map] at h2
  have h3 := List.Nodup.of_map _ h2
  exact ⟨h, List.Nodup.of_map _ h3, h3⟩

/-- C6 at four calls within two seconds, the counter wrapping past 2^32. -/
theorem C6_minted_names_distinct_witness :
    (mintAll exampleClient [1600000000, 1600000000, 1600000000, 1600000001]
      4294967294).Nodup ∧
    (suffixAll [1600000000, 1600000000, 1600000000, 1600000001] 4294967294).Nodup ∧
    ((suffixAll [1600000000, 1600000000, 1600000000, 1600000001] 4294967294).map
      zbase32Encode).Nodup :=
  C6_minted_names_distinct exampleClient _ 4294967294 (by decide)

/-! ## Lemmas on payload reflection -/

theorem scanReflection_eq (parts : List Str) (randomID : Str) :
    scanReflection parts randomID
      = (parts.filter (fun l => decide (l.length = 32))).getLastD randomID := by
  induction parts generalizing randomID with
  | nil => rfl
  | cons p ps ih =>
    unfold scanReflection
    by_cases hp : p.length = 32
    · simp only [hp, if_true, List.filter_cons, decide_True, List.getLastD_cons]
      exact ih p
    · simp only [hp, if_false, List.filter_cons, decide_False]
      exact ih randomID

theorem getD_at_length (a : List Nat) (x d : Nat) (t : List Nat) :
    (a ++ x :: t).getD a.length d = x := by
  induction a with
  | nil => rfl
  | cons y ys ih => simpa using ih

theorem set_at_length (a : List Nat) (x y : Nat) (t : List Nat) :
    (a ++ x :: t).set a.length y = a ++ y :: t := by
  induction a with
  | nil => rfl
  | cons z zs ih => simp [ih]

/-- The swap loop, run on the middle segment `m` of a slice with enough fuel,
reverses that segment and leaves the rest. -/
theorem swapLoop_segment (fuel : Nat) (a m b : List Nat) (h : m.length ≤ fuel) :
    swapLoop fuel (a ++ m ++ b) a.length (a.length + m.length - 1) = a ++ m.reverse ++ b := by
  induction fuel generalizing a m b with
  | zero =>
    have hm : m = [] := List.eq_nil_of_length_eq_zero (by omega)
    simp [swapLoop, hm]
  | succ fuel ih =>
    cases m with
    | nil => simp [swapLoop]
    | cons x m' =>
      rcases List.eq_nil_or_concat m' with hm | ⟨mid, y, hm⟩
      · simp [swapLoop, hm]
      · rw [List.concat_eq_append] at hm
        subst hm
        have hlen : mid.length ≤ fuel := by
          simp only [List.length_cons, List.length_append, List.length_nil] at h
          omega
        have hij : a.length < a.length + (x :: (mid ++ [y])).length - 1 := by
          simp only [List.length_cons, List.length_append, List.length_nil]
          omega
        have hj : a.length + (x :: (mid ++ [y])).length - 1 = (a ++ x :: mid).length := by
          simp only [List.length_cons, List.length_append, List.length_nil]
          omega
        have hj2 : a.length + (x :: (mid ++ [y])).length - 1 = (a ++ y :: mid).length := by
          simp only [List.length_cons, List.length_append, List.length_nil]
          omega
        have e1 : a ++ (x :: (mid ++ [y])) ++ b = a ++ x :: (mid ++ y :: b) := by simp
        have e2 : a ++ (x :: (mid ++ [y])) ++ b = (a ++ x :: mid) ++ y :: b := by simp
        have e3 : a ++ y :: (mid ++ y :: b) = (a ++ y :: mid) ++ y :: b := by simp
        have gi : (a ++ (x :: (mid ++ [y])) ++ b).getD a.length 0 = x := by
          rw [e1]; exact getD_at_length a x 0 _
        have gj : (a ++ (x :: (mid ++ [y])) ++ b).getD
            (a.length + (x :: (mid ++ [y])).length - 1) 0 = y := by
          rw [e2, hj]; exact getD_at_length _ y 0 _
        have hset : ((a ++ (x :: (mid ++ [y])) ++ b).set a.length y).set
            (a.length + (x :: (mid ++ [y])).length - 1) x
              = (a ++ [y]) ++ mid ++ (x :: b) := by
          rw [e1, set_at_length, e3, hj2, set_at_length]
          simp
        have hnext : a.length + (x :: (mid ++ [y])).length - 1 - 1
            = (a ++ [y]).length + mid.length - 1 := by
          simp only [List.length_cons, List.length_append, List.length_nil]
          omega
        have hi : a.length + 1 = (a ++ [y]).length := by simp
        unfold swapLoop
        rw [if_pos hij, gi, gj, hset, hnext, hi, ih (a ++ [y]) mid (x :: b) hlen]
        simp

theorem swapLoop_reverse (rns : List Nat) :
    swapLoop rns.length rns 0 (rns.length - 1) = rns.reverse := by
  have h := swapLoop_segment rns.length [] rns [] (Nat.le_refl _)
  simpa using h

theorem runesFrom_ascii (l : Str) (h : ∀ b ∈ l, b < 128) : runesFrom 0 l = l := by
  induction l with
  | nil => rfl
  | cons b rest ih =>
    have hb : b < 128 := h b (List.mem_cons_self _ _)
    have hd : decodeRune (b :: rest) = (b, 1) := by
      simp [decodeRune, hb]
    simp only [runesFrom, hd]
    rw [ih (fun c hc => h c (List.mem_cons_of_mem _ hc))]

theorem stringOfRunes_ascii (l : List Nat) (h : ∀ b ∈ l, b < 128) : stringOfRunes l = l := by
  induction l with
  | nil => rfl
  | cons b rest ih =>
    have hb : b < 128 := h b (List.mem_cons_self _ _)
    have he : encodeRune b = [b] := by
      unfold encodeRune
      rw [if_pos (by omega)]
    unfold stringOfRunes at ih ⊢
    rw [List.flatMap_cons, he, ih (fun c hc => h c (List.mem_cons_of_mem _ hc))]
    rfl

/-- The function in closed form: the runes of the last part of length 32,
reversed and written back as a string. -/
theorem URLReflection_closed (address : Str) :
    URLReflection address
      = stringOfRunes (runesOfString
          (((split dot address).filter (fun l => decide (l.length = 32))).getLastD [])).reverse := by
  unfold URLReflection
  simp only [scanReflection_eq, swapLoop_reverse]

/-- C7: `URLReflection` equals its reference definition: the last
dot-separated label of length 32 (Go's `len`) with its characters (runes) in
reverse order; the empty string when no label has that length; for an address
with exactly one such label that label reversed, which for a label of ASCII
characters is the reversal of its bytes. -/
theorem C7_URLReflection_spec (address : Str) :
    URLReflection address = reflectionSpec address ∧
    ((∀ l ∈ split dot address, l.length ≠ 32) → URLReflection address = []) ∧
    (∀ l, (split dot address).filter (fun p => decide (p.length = 32)) = [l] →
      URLReflection address = stringOfRunes (runesOfString l).reverse ∧
      ((∀ b ∈ l, b < 128) → URLReflection address = l.reverse)) := by
  refine ⟨URLReflection_closed address, ?_, ?_⟩
  · intro hno
    have hf : (split dot address).filter (fun p => decide (p.length = 32)) = [] := by
      rw [List.filter_eq_nil_iff]
      intro l hl
      simpa using hno l hl
    rw [URLReflection_closed, hf]
    rfl
  · intro l hl
    have hone : URLReflection address = stringOfRunes (runesOfString l).reverse := by
      rw [URLReflection_closed, hl]
      rfl
    refine ⟨hone, ?_⟩
    intro hascii
    rw [hone]
    unfold runesOfString
    rw [runesFrom_ascii l hascii]
    exact stringOfRunes_ascii _ (fun b hb => hascii b (List.mem_reverse.mp hb))

/-- C7 at an address with one label of 32 characters. -/
theorem C7_URLReflection_spec_witness :
    URLReflection (lit "abc.0123456789abcdef0123456789abcdef.interact.sh")
      = lit "fedcba9876543210fedcba9876543210" :=
  ((C7_URLReflection_spec (lit "abc.0123456789abcdef0123456789abcdef.interact.sh")).2.2
    (lit "0123456789abcdef0123456789abcdef") (by decide)).2 (by decide)

end Interactsh
